import Mathlib

set_option maxRecDepth 8192

/-!
# A shallow embedding of the `chip8_core` CHIP-8 machine

This file embeds `src/chip8_core/src/lib.rs` into Lean: the `Emu` state
struct, its lifecycle (`new`, `reset`, `load`, `keypress`), the
fetch/decode/execute cycle (`fetch`, `execute`, `tick`) and the timers
(`tick_timers`).  Machine integers are modelled as `Nat` with explicit
`% 2 ^ w` where wrapping matters; Rust array-indexing panics and the
`unimplemented!` arm are modelled by `Option` (`none` = the process
aborts).  Rust's `random()` byte is modelled as an extra oracle argument.

Bit-mask digit extraction `(op & 0xF000) >> 12` etc. is rendered with the
equivalent `/`/`%` arithmetic on `Nat` (for `op < 2 ^ 16` the two agree),
which keeps the definitions in `omega`'s fragment.

One arm is not translated from the source: the draw-sprite arm
(`0xD,_,_,_`) in the source does not name its y origin (`y_coord` is
unbound, both origin bindings are named `x_coord`, and the index type is
misspelled `uszie`), so `Emu.drawSprite` below is modelled from the
spec's draw-sprite algorithm instead; see its doc comment.
-/

namespace Chip8

def SCREEN_WIDTH : Nat := 64
def SCREEN_HEIGHT : Nat := 32
def RAM_SIZE : Nat := 4096
def NUM_REGS : Nat := 16
def STACK_SIZE : Nat := 16
def START_ADDR : Nat := 0x200
def FONTSET_SIZE : Nat := 80
def NUM_KEYS : Nat := 16

/-- The built-in font table, 16 glyphs of 5 bytes each. -/
def FONTSET : List Nat := [
  0xF0, 0x90, 0x90, 0x90, 0xF0,
  0x20, 0x60, 0x20, 0x20, 0x70,
  0xF0, 0x10, 0xF0, 0x80, 0xF0,
  0xF0, 0x10, 0xF0, 0x10, 0xF0,
  0x90, 0x90, 0xF0, 0x10, 0x10,
  0xF0, 0x80, 0xF0, 0x10, 0xF0,
  0xF0, 0x80, 0xF0, 0x90, 0xF0,
  0xF0, 0x10, 0x20, 0x40, 0x40,
  0xF0, 0x90, 0xF0, 0x90, 0xF0,
  0xF0, 0x90, 0xF0, 0x10, 0xF0,
  0xF0, 0x90, 0xF0, 0x90, 0x90,
  0xE0, 0x90, 0xE0, 0x90, 0xE0,
  0xF0, 0x80, 0x80, 0x80, 0xF0,
  0xE0, 0x90, 0x90, 0x90, 0xE0,
  0xF0, 0x80, 0xF0, 0x80, 0xF0,
  0xF0, 0x80, 0xF0, 0x80, 0x80]

/-- The machine state of `struct Emu`.  Byte and word fields are `Nat`s
(kept in range by the operations), arrays are `List`s of the fixed
lengths 4096 / 2048 / 16 / 16 / 16. -/
structure Emu where
  pc : Nat
  ram : List Nat
  screen : List Bool
  v_reg : List Nat
  i_reg : Nat
  sp : Nat
  stack : List Nat
  keys : List Bool
  dt : Nat
  st : Nat

/-- `Emu::new`: zeroed state, `pc = START_ADDR`, and the font table
copied into `ram[..FONTSET_SIZE]`. -/
def Emu.new : Emu :=
  { pc := START_ADDR
    ram := FONTSET ++ List.replicate (RAM_SIZE - FONTSET_SIZE) 0
    screen := List.replicate (SCREEN_HEIGHT * SCREEN_WIDTH) false
    v_reg := List.replicate NUM_REGS 0
    i_reg := 0
    sp := 0
    stack := List.replicate STACK_SIZE 0
    keys := List.replicate NUM_KEYS false
    dt := 0
    st := 0 }

/-- `Emu::push`: `stack[sp] = val; sp += 1`.  The unchecked write
`self.stack[self.sp as usize]` panics when `sp ≥ 16`, modelled by
`none`. -/
def Emu.push (e : Emu) (val : Nat) : Option Emu :=
  if e.sp < STACK_SIZE then
    some { e with stack := e.stack.set e.sp val, sp := e.sp + 1 }
  else none

/-- `Emu::pop`: `sp -= 1; stack[sp]`.  With `sp = 0` the `u16`
decrement (and then the stack index) aborts the process, modelled by
`none`. -/
def Emu.pop (e : Emu) : Option (Emu × Nat) :=
  if e.sp = 0 then none
  else some ({ e with sp := e.sp - 1 }, e.stack.getD (e.sp - 1) 0)

/-- `Emu::reset`.  Note: faithfully to the source, the `keys` field is
not restored (the source's `reset` has no assignment to `self.keys`). -/
def Emu.reset (e : Emu) : Emu :=
  { e with
    pc := START_ADDR
    ram := FONTSET ++ List.replicate (RAM_SIZE - FONTSET_SIZE) 0
    screen := List.replicate (SCREEN_HEIGHT * SCREEN_WIDTH) false
    v_reg := List.replicate NUM_REGS 0
    i_reg := 0
    sp := 0
    stack := List.replicate STACK_SIZE 0
    dt := 0
    st := 0 }

/-- `Emu::fetch`: two big-endian bytes at `pc`, `pc += 2`.  The RAM
reads panic when `pc + 1 ≥ 4096`, modelled by `none`.  For bytes
(`< 256`) the compose `(hi << 8) | lo` equals `hi * 256 + lo`. -/
def Emu.fetch (e : Emu) : Option (Emu × Nat) :=
  if e.pc + 1 < RAM_SIZE then
    some ({ e with pc := e.pc + 2 },
          e.ram.getD e.pc 0 * 256 + e.ram.getD (e.pc + 1) 0)
  else none

/-- The source's `FX0A` key scan loop: first index whose key is held,
in ascending order (`for i in 0..keys.len() { if keys[i] { .. break } }`). -/
def scanKeys : List Bool → Nat → Option Nat
  | [], _ => none
  | k :: rest, i => if k then some i else scanKeys rest (i + 1)

/-- Screen index of sprite row `yl`, column `xl`, drawn at origin
`(x0, y0)`: per-pixel wraparound `x % 64`, `y % 32`, row-major. -/
def pixelIndex (x0 y0 yl xl : Nat) : Nat :=
  (x0 + xl) % SCREEN_WIDTH + SCREEN_WIDTH * ((y0 + yl) % SCREEN_HEIGHT)

/-- Bit `xl` (most-significant first) of sprite row `yl`, read from RAM
at `i_reg + yl`: the source's `pixels & (0b1000_0000 >> x_line) != 0`. -/
def spriteBit (ram : List Nat) (iReg yl xl : Nat) : Bool :=
  ram.getD (iReg + yl) 0 / 2 ^ (7 - xl) % 2 == 1

/-- All (row, column) pairs of an `n`-row sprite, rows outermost,
columns 0..8 most-significant bit first — the draw loop's iteration
order. -/
def spritePairs (n : Nat) : List (Nat × Nat) :=
  List.product (List.range n) (List.range 8)

/-- The screen indices whose pixels an `n`-row draw at `(x0, y0)`
toggles, in loop order. -/
def spritePixels (ram : List Nat) (iReg x0 y0 n : Nat) : List Nat :=
  ((spritePairs n).filter (fun p => spriteBit ram iReg p.1 p.2)).map
    (fun p => pixelIndex x0 y0 p.1 p.2)

/-- XOR the listed pixels into the screen, OR-ing each pixel's
"was already on" bit into the collision flag before toggling it. -/
def drawPixelList : List Bool → Bool → List Nat → List Bool × Bool
  | scr, fl, [] => (scr, fl)
  | scr, fl, i :: rest =>
      drawPixelList (scr.set i (!(scr.getD i false))) (fl || scr.getD i false) rest

/-- Modelled from the spec: the draw-sprite algorithm of the `D,x,y,n`
opcode.  The source's draw arm does not compile (its second origin
binding shadows `x_coord` instead of binding `y_coord`, the later
`y_coord` use is unbound, and the cast type is the misspelling `uszie`),
so this definition follows the spec's §4.2 draw-sprite algorithm: `n`
sprite rows read from memory at `index_register`, bits drawn
most-significant first, per-pixel wraparound x mod 64 / y mod 32 at
origin `(Vx, Vy)`, each set sprite bit XOR-ing its display pixel, and
VF := 1 when any already-on pixel is hit (OR across the whole sprite),
else 0. -/
def Emu.drawSprite (e : Emu) (d2 d3 d4 : Nat) : Emu :=
  let x0 := e.v_reg.getD d2 0
  let y0 := e.v_reg.getD d3 0
  let res := drawPixelList e.screen false (spritePixels e.ram e.i_reg x0 y0 d4)
  { e with
    screen := res.1
    v_reg := e.v_reg.set 15 (if res.2 then 1 else 0) }

/-- Build an opcode word from its four nibbles. -/
def opOf (d1 d2 d3 d4 : Nat) : Nat :=
  d1 * 4096 + d2 * 256 + d3 * 16 + d4

/-- `Emu::execute`: decode the four nibbles and dispatch exactly the
source's match arms, in source order.  `rng` models the `random()` byte
of the `C,x,n,n` arm.  `none` models a panic (unchecked index, `u16`
under/overflow in debug, or the `unimplemented!` arm). -/
def Emu.execute (e : Emu) (op rng : Nat) : Option Emu :=
  let d1 := op / 4096 % 16
  let d2 := op / 256 % 16
  let d3 := op / 16 % 16
  let d4 := op % 16
  -- (0, 0, 0, 0) NOP
  if d1 = 0 ∧ d2 = 0 ∧ d3 = 0 ∧ d4 = 0 then some e
  -- (0, 0, E, 0) CLS
  else if d1 = 0 ∧ d2 = 0 ∧ d3 = 0xE ∧ d4 = 0 then
    some { e with screen := List.replicate (SCREEN_WIDTH * SCREEN_HEIGHT) false }
  -- (0, 0, E, E) RET
  else if d1 = 0 ∧ d2 = 0 ∧ d3 = 0xE ∧ d4 = 0xE then
    match e.pop with
    | none => none
    | some (e1, ret_addr) => some { e1 with pc := ret_addr }
  -- (1, _, _, _) JMP nnn
  else if d1 = 1 then some { e with pc := op % 4096 }
  -- (2, _, _, _) CALL nnn
  else if d1 = 2 then
    match e.push e.pc with
    | none => none
    | some e1 => some { e1 with pc := op % 4096 }
  -- (3, _, _, _) skip if Vx == nn
  else if d1 = 3 then
    some (if e.v_reg.getD d2 0 = op % 256 then { e with pc := e.pc + 2 } else e)
  -- (4, _, _, _) skip if Vx != nn
  else if d1 = 4 then
    some (if e.v_reg.getD d2 0 ≠ op % 256 then { e with pc := e.pc + 2 } else e)
  -- (5, _, _, 0) skip if Vx == Vy
  else if d1 = 5 ∧ d4 = 0 then
    some (if e.v_reg.getD d2 0 = e.v_reg.getD d3 0 then { e with pc := e.pc + 2 } else e)
  -- (6, _, _, _) Vx = nn
  else if d1 = 6 then some { e with v_reg := e.v_reg.set d2 (op % 256) }
  -- (7, _, _, _) Vx += nn (wrapping)
  else if d1 = 7 then
    some { e with v_reg := e.v_reg.set d2 ((e.v_reg.getD d2 0 + op % 256) % 256) }
  -- (8, _, _, 0) Vx = Vy
  else if d1 = 8 ∧ d4 = 0 then
    some { e with v_reg := e.v_reg.set d2 (e.v_reg.getD d3 0) }
  -- (8, _, _, 1) Vx |= Vy
  else if d1 = 8 ∧ d4 = 1 then
    some { e with v_reg := e.v_reg.set d2 (e.v_reg.getD d2 0 ||| e.v_reg.getD d3 0) }
  -- (8, _, _, 2) Vx &= Vy
  else if d1 = 8 ∧ d4 = 2 then
    some { e with v_reg := e.v_reg.set d2 (e.v_reg.getD d2 0 &&& e.v_reg.getD d3 0) }
  -- (8, _, _, 3) Vx ^= Vy
  else if d1 = 8 ∧ d4 = 3 then
    some { e with v_reg := e.v_reg.set d2 (e.v_reg.getD d2 0 ^^^ e.v_reg.getD d3 0) }
  -- (8, _, _, 4) Vx += Vy, VF = carry; Vx written first, VF second
  else if d1 = 8 ∧ d4 = 4 then
    let a := e.v_reg.getD d2 0
    let b := e.v_reg.getD d3 0
    let new_vx := (a + b) % 256
    let new_vf := if 256 ≤ a + b then 1 else 0
    some { e with v_reg := (e.v_reg.set d2 new_vx).set 15 new_vf }
  -- (8, _, _, 5) Vx -= Vy, VF = 0 on borrow; Vx written first, VF second
  else if d1 = 8 ∧ d4 = 5 then
    let a := e.v_reg.getD d2 0
    let b := e.v_reg.getD d3 0
    let new_vx := (a + 256 - b) % 256
    let new_vf := if a < b then 0 else 1
    some { e with v_reg := (e.v_reg.set d2 new_vx).set 15 new_vf }
  -- (8, _, _, 6) Vx >>= 1, VF = former lsb
  else if d1 = 8 ∧ d4 = 6 then
    let lsb := e.v_reg.getD d2 0 % 2
    some { e with v_reg := (e.v_reg.set d2 (e.v_reg.getD d2 0 / 2)).set 15 lsb }
  -- (8, _, _, 7) Vx = Vy - Vx, VF = 0 on borrow; Vx written first, VF second
  else if d1 = 8 ∧ d4 = 7 then
    let a := e.v_reg.getD d2 0
    let b := e.v_reg.getD d3 0
    let new_vx := (b + 256 - a) % 256
    let new_vf := if b < a then 0 else 1
    some { e with v_reg := (e.v_reg.set d2 new_vx).set 15 new_vf }
  -- (8, _, _, E) Vx <<= 1, VF = former msb
  else if d1 = 8 ∧ d4 = 0xE then
    let msb := e.v_reg.getD d2 0 / 128 % 2
    some { e with v_reg := (e.v_reg.set d2 (e.v_reg.getD d2 0 * 2 % 256)).set 15 msb }
  -- (9, _, _, 0) skip if Vx != Vy
  else if d1 = 9 ∧ d4 = 0 then
    some (if e.v_reg.getD d2 0 ≠ e.v_reg.getD d3 0 then { e with pc := e.pc + 2 } else e)
  -- (A, _, _, _) I = nnn
  else if d1 = 0xA then some { e with i_reg := op % 4096 }
  -- (B, _, _, _) JMP V0 + nnn
  else if d1 = 0xB then some { e with pc := e.v_reg.getD 0 0 + op % 4096 }
  -- (C, _, _, _) Vx = rand() & nn
  else if d1 = 0xC then
    some { e with v_reg := e.v_reg.set d2 (rng % 256 &&& op % 256) }
  -- (D, _, _, _) draw sprite (spec-modelled, see Emu.drawSprite)
  else if d1 = 0xD then some (e.drawSprite d2 d3 d4)
  -- (E, _, 9, E) skip if key[Vx] pressed; key index panics when Vx ≥ 16
  else if d1 = 0xE ∧ d3 = 9 ∧ d4 = 0xE then
    if e.v_reg.getD d2 0 < NUM_KEYS then
      some (if e.keys.getD (e.v_reg.getD d2 0) false then { e with pc := e.pc + 2 } else e)
    else none
  -- (E, _, A, 1) skip if key[Vx] not pressed
  else if d1 = 0xE ∧ d3 = 0xA ∧ d4 = 1 then
    if e.v_reg.getD d2 0 < NUM_KEYS then
      some (if !(e.keys.getD (e.v_reg.getD d2 0) false) then { e with pc := e.pc + 2 } else e)
    else none
  -- (F, _, 0, 7) Vx = DT
  else if d1 = 0xF ∧ d3 = 0 ∧ d4 = 7 then
    some { e with v_reg := e.v_reg.set d2 e.dt }
  -- (F, _, 0, A) wait for key press
  else if d1 = 0xF ∧ d3 = 0 ∧ d4 = 0xA then
    match scanKeys e.keys 0 with
    | some i => some { e with v_reg := e.v_reg.set d2 i }
    | none => some { e with pc := e.pc - 2 }
  -- (F, _, 1, 5) DT = Vx
  else if d1 = 0xF ∧ d3 = 1 ∧ d4 = 5 then some { e with dt := e.v_reg.getD d2 0 }
  -- (F, _, 1, 8) ST = Vx
  else if d1 = 0xF ∧ d3 = 1 ∧ d4 = 8 then some { e with st := e.v_reg.getD d2 0 }
  -- (F, _, 1, E) I += Vx (wrapping)
  else if d1 = 0xF ∧ d3 = 1 ∧ d4 = 0xE then
    some { e with i_reg := (e.i_reg + e.v_reg.getD d2 0) % 65536 }
  -- (F, _, 2, 9) font address: the source reads Vx into `c` but then
  -- performs `self.i_reg *= 5`, scaling the old index register and
  -- never using `c`
  else if d1 = 0xF ∧ d3 = 2 ∧ d4 = 9 then
    let c := e.v_reg.getD d2 0
    some { e with i_reg := e.i_reg * 5 % 65536 }
  -- (F, _, 3, 3) BCD of Vx at I, I+1, I+2
  else if d1 = 0xF ∧ d3 = 3 ∧ d4 = 3 then
    let vx := e.v_reg.getD d2 0
    let r3 := ((e.ram.set e.i_reg (vx / 100)).set (e.i_reg + 1) (vx / 10 % 10)).set (e.i_reg + 2) (vx % 10)
    if e.i_reg + 2 < RAM_SIZE then some { e with ram := r3 } else none
  -- (F, _, 5, 5) store V0..Vx at I..
  else if d1 = 0xF ∧ d3 = 5 ∧ d4 = 5 then
    let r5 := (List.range (d2 + 1)).foldl (fun r j => r.set (e.i_reg + j) (e.v_reg.getD j 0)) e.ram
    if e.i_reg + d2 < RAM_SIZE then some { e with ram := r5 } else none
  -- (F, _, 6, 5) load V0..Vx from I..
  else if d1 = 0xF ∧ d3 = 6 ∧ d4 = 5 then
    let v6 := (List.range (d2 + 1)).foldl (fun v j => v.set j (e.ram.getD (e.i_reg + j) 0)) e.v_reg
    if e.i_reg + d2 < RAM_SIZE then some { e with v_reg := v6 } else none
  -- anything else: unimplemented! — the process aborts
  else none

/-- `Emu::tick`: fetch then execute. -/
def Emu.tick (e : Emu) (rng : Nat) : Option Emu :=
  match e.fetch with
  | none => none
  | some (e1, op) => e1.execute op rng

/-- `Emu::tick_timers`: each timer decremented when nonzero. -/
def Emu.tick_timers (e : Emu) : Emu :=
  let e1 := if 0 < e.dt then { e with dt := e.dt - 1 } else e
  if 0 < e1.st then { e1 with st := e1.st - 1 } else e1

/-- `tick_timers` iterated `n` times. -/
def tickTimersN : Nat → Emu → Emu
  | 0, e => e
  | n + 1, e => tickTimersN n e.tick_timers

/-- `Emu::get_display`. -/
def Emu.get_display (e : Emu) : List Bool := e.screen

/-- `Emu::keypress`: `keys[index] = pressed`. -/
def Emu.keypress (e : Emu) (index : Nat) (pressed : Bool) : Emu :=
  { e with keys := e.keys.set index pressed }

/-- `Emu::load`: `ram[0x200 .. 0x200 + len] = data`.  The range
`self.ram[start..end]` panics when `end > 4096`, modelled by `none`. -/
def Emu.load (e : Emu) (data : List Nat) : Option Emu :=
  if START_ADDR + data.length ≤ RAM_SIZE then some { e with ram := e.ram.take START_ADDR ++ data ++ e.ram.drop (START_ADDR + data.length) } else none


/-! ## General list helpers -/

theorem getD_set {α : Type} (l : List α) (i j : Nat) (x d : α) :
    (l.set i x).getD j d = if i = j ∧ j < l.length then x else l.getD j d := by
  induction l generalizing i j with
  | nil => simp [List.set]
  | cons h t ih =>
    cases i with
    | zero =>
      cases j with
      | zero => simp
      | succ j' => simp [List.getD_cons_succ]
    | succ i' =>
      cases j with
      | zero => simp [List.getD_cons_zero]
      | succ j' =>
        simp only [List.set, List.getD_cons_succ, ih, List.length_cons]
        by_cases hc : i' = j' ∧ j' < t.length
        · rw [if_pos hc, if_pos (by omega : i' + 1 = j' + 1 ∧ j' + 1 < t.length + 1)]
        · rw [if_neg hc, if_neg (by omega : ¬(i' + 1 = j' + 1 ∧ j' + 1 < t.length + 1))]

theorem getD_replicate {α : Type} (n j : Nat) (a d : α) :
    (List.replicate n a).getD j d = if j < n then a else d := by
  induction n generalizing j with
  | zero => simp [List.getD]
  | succ n ih =>
    cases j with
    | zero => simp [List.replicate_succ]
    | succ j' =>
      rw [List.replicate_succ, List.getD_cons_succ, ih]
      by_cases h : j' < n
      · rw [if_pos h, if_pos (by omega)]
      · rw [if_neg h, if_neg (by omega)]

theorem getD_default_of_le {α : Type} (l : List α) (j : Nat) (d : α)
    (h : l.length ≤ j) : l.getD j d = d := by
  induction l generalizing j with
  | nil => simp [List.getD]
  | cons x t ih =>
    cases j with
    | zero => simp at h
    | succ j' => simpa [List.getD_cons_succ] using ih j' (by simpa using h)

theorem ext_of_getD (l₁ l₂ : List Bool) (hl : l₁.length = l₂.length)
    (h : ∀ j, j < l₁.length → l₁.getD j false = l₂.getD j false) : l₁ = l₂ := by
  refine List.ext_getElem hl (fun n h1 h2 => ?_)
  have := h n h1
  rwa [List.getD_eq_getElem _ _ h1, List.getD_eq_getElem _ _ h2] at this

theorem any_congr_mem {α : Type} (l : List α) (f g : α → Bool)
    (h : ∀ x ∈ l, f x = g x) : l.any f = l.any g := by
  induction l with
  | nil => rfl
  | cons x t ih =>
    simp only [List.any_cons, h x (by simp), ih (fun a ha => h a (by simp [ha]))]

/-! ## Facts about the initial state's array lengths -/

theorem FONTSET_len : FONTSET.length = 80 := rfl

theorem new_ram_len : Emu.new.ram.length = 4096 := by
  show (FONTSET ++ List.replicate (RAM_SIZE - FONTSET_SIZE) 0).length = 4096
  rw [List.length_append, FONTSET_len, List.length_replicate]
  rfl

theorem new_screen_len : Emu.new.screen.length = 2048 := by
  show (List.replicate (SCREEN_HEIGHT * SCREEN_WIDTH) false).length = 2048
  rw [List.length_replicate]
  rfl

theorem new_vreg_len : Emu.new.v_reg.length = 16 := by
  show (List.replicate NUM_REGS 0).length = 16
  rw [List.length_replicate]
  rfl

/-! ## Dispatch lemmas for `load` -/

theorem load_of_fits (e : Emu) (data : List Nat)
    (h : START_ADDR + data.length ≤ RAM_SIZE) :
    Emu.load e data = some { e with ram := e.ram.take START_ADDR ++ data ++ e.ram.drop (START_ADDR + data.length) } := by
  unfold Emu.load
  rw [if_pos h]

theorem load_of_oversized (e : Emu) (data : List Nat)
    (h : RAM_SIZE < START_ADDR + data.length) :
    Emu.load e data = none := by
  unfold Emu.load
  rw [if_neg (by omega)]
/-! ## Claim C1 — draw origin and per-pixel wraparound

The source's draw arm is defective: it binds both origin coordinates as
`x_coord` (`v_reg[digit3]` shadows `v_reg[digit2]`), references the
unbound `y_coord`, misspells `usize` as `uszie`, and wraps the y
coordinate modulo `SCREEN_WIDTH` (64) rather than `SCREEN_HEIGHT` (32) —
the spec's §9 lists this as a known defect whose corrected semantics is
the §4.2 table.  The theorem below checks the claim's semantics on the
spec-modelled draw. -/

/-- Claim C1: on the spec-modelled draw, the sprite origin is `(Vx, Vy)`
read from digit2/digit3 and each pixel wraps x mod 64 / y mod 32 after
the per-pixel offset: drawing byte `0xC0` at `(V1, V2) = (63, 0)` via
opcode `0xD121` lights `(63, 0)` (row-major index 63), wraps the second
column to `(0, 0)` (index 0), leaves `(1, 0)` off, and reports no
collision; drawing the two-row sprite `0x80, 0x80` at `(0, 31)` via
`0xD122` wraps the second row's pixel to `(0, 0)`. -/
theorem draw_wraps_per_pixel :
    (Emu.execute { Emu.new with v_reg := (List.replicate 16 0).set 1 63, i_reg := 80, ram := Emu.new.ram.set 80 0xC0 } 0xD121 0).map
      (fun e => (e.screen.getD 63 false, e.screen.getD 0 false, e.screen.getD 1 false, e.v_reg.getD 15 0))
      = some (true, true, false, 0) ∧
    (Emu.execute { Emu.new with v_reg := (List.replicate 16 0).set 2 31, i_reg := 80, ram := (Emu.new.ram.set 80 0x80).set 81 0x80 } 0xD122 0).map
      (fun e => e.screen.getD 0 false) = some true := by
  exact ⟨rfl, rfl⟩

/-! ## Claim C2 — font-address opcode `F,x,2,9` -/

/-- Claim C2 (code bug): executing `0xF329` with `i_reg = 1` and
`V3 = 3` leaves `i_reg = 5`: the source computes `c = Vx` but then runs
`self.i_reg *= 5`, scaling the previous `index_register` and ignoring
`Vx`, whereas the claim requires `glyph_base + 5 × Vx = 15`. -/
theorem font_addr_scales_old_index :
    (Emu.execute { Emu.new with i_reg := 1, v_reg := (List.replicate 16 0).set 3 3 } 0xF329 0).map Emu.i_reg = some 5 ∧
    (5 : Nat) ≠ 0 + 5 * 3 := by
  exact ⟨rfl, by decide⟩

/-! ## Claim C3 — reset -/

/-- Claim C3 counterexample: `reset()` does not restore the key states.
After `keypress(3, true)` followed by `reset()`, key 3 still reads
pressed, while the claim requires every key false (as after `new()`). -/
theorem reset_leaves_keys_cex :
    ((Emu.new.keypress 3 true).reset).keys.getD 3 false = true ∧
    Emu.new.keys.getD 3 false = false := by
  exact ⟨rfl, rfl⟩

/-- Claim C3 (amended): after `reset()`, every field except `keys`
equals its post-`new()` initial state — program counter `0x200`, memory
all zero with the font table re-seeded byte-identically in `[0, 80)`,
display all off, the 16 registers, index register, stack, stack pointer
and both timers zero — regardless of the prior state; the 16 key states
are left exactly as they were. -/
theorem reset_restores_all_but_keys (e : Emu) :
    (Emu.reset e).pc = Emu.new.pc ∧
    (Emu.reset e).ram = Emu.new.ram ∧
    (Emu.reset e).screen = Emu.new.screen ∧
    (Emu.reset e).v_reg = Emu.new.v_reg ∧
    (Emu.reset e).i_reg = Emu.new.i_reg ∧
    (Emu.reset e).sp = Emu.new.sp ∧
    (Emu.reset e).stack = Emu.new.stack ∧
    (Emu.reset e).dt = Emu.new.dt ∧
    (Emu.reset e).st = Emu.new.st ∧
    (Emu.reset e).keys = e.keys := by
  exact ⟨rfl, rfl, rfl, rfl, rfl, rfl, rfl, rfl, rfl, rfl⟩

/-! ## Claim C4 — ROM loading -/

/-- Claim C4 (code bug): `load` has no size check and returns no
`Result`: on a 3585-byte image the slice write runs past the end of RAM
and aborts the process (modelled by `none`) instead of failing with a
typed `MalformedRom` value, while a 3584-byte image is copied verbatim
from `0x200` with its last byte landing at address 4095. -/
theorem load_panics_on_oversized_rom :
    Emu.load Emu.new (List.replicate 3585 1) = none ∧
    (∃ e1, Emu.load Emu.new (List.replicate 3584 7) = some e1 ∧
      e1.ram.getD 0x200 0 = 7 ∧ e1.ram.getD 4095 0 = 7) := by
  have htake : (Emu.new.ram.take START_ADDR).length = 512 := by
    rw [List.length_take, new_ram_len]
    rfl
  have h512 : (Emu.new.ram.take START_ADDR ++ List.replicate 3584 7 ++ Emu.new.ram.drop (START_ADDR + (List.replicate 3584 7).length)).getD 0x200 0 = 7 := by
    rw [List.getD_append _ _ _ _ (by rw [List.length_append, htake, List.length_replicate]; decide)]
    rw [List.getD_append_right _ _ _ _ (by rw [htake]; try decide)]
    rw [htake]
    rw [getD_replicate]
    decide
  have h4095 : (Emu.new.ram.take START_ADDR ++ List.replicate 3584 7 ++ Emu.new.ram.drop (START_ADDR + (List.replicate 3584 7).length)).getD 4095 0 = 7 := by
    rw [List.getD_append _ _ _ _ (by rw [List.length_append, htake, List.length_replicate]; decide)]
    rw [List.getD_append_right _ _ _ _ (by rw [htake]; try decide)]
    rw [htake]
    rw [getD_replicate]
    decide
  exact ⟨load_of_oversized _ _ (by rw [List.length_replicate]; decide),
    ⟨_, load_of_fits _ _ (by rw [List.length_replicate]; decide), h512, h4095⟩⟩

/-! ## Claim C5 — stack bounds -/

/-- Claim C5 (code bug): with 16 return addresses already stacked, a
`CALL` (opcode `0x2345`) indexes `stack[16]` and aborts the process
(modelled by `none` from `tick`), and with an empty stack a `RET`
(opcode `0x00EE`) decrements the `u16` stack pointer below zero and
aborts likewise — neither produces the claim's typed `StackOverflow` /
`StackUnderflow` failure from `tick()`. -/
theorem call_ret_panic_at_stack_bounds :
    Emu.tick { Emu.new with ram := (Emu.new.ram.set 0x200 0x23).set 0x201 0x45, sp := 16 } 0 = none ∧
    Emu.tick { Emu.new with ram := (Emu.new.ram.set 0x200 0x00).set 0x201 0xEE, sp := 0 } 0 = none := by
  exact ⟨rfl, rfl⟩

/-! ## Claim C9 — timers -/

theorem tick_timers_dt (e : Emu) : (Emu.tick_timers e).dt = e.dt - 1 := by
  by_cases h1 : 0 < e.dt <;> by_cases h2 : 0 < e.st <;>
    simp [Emu.tick_timers, h1, h2] <;> omega

theorem tick_timers_st (e : Emu) : (Emu.tick_timers e).st = e.st - 1 := by
  by_cases h1 : 0 < e.dt <;> by_cases h2 : 0 < e.st <;>
    simp [Emu.tick_timers, h1, h2] <;> omega

theorem tickTimersN_dt (n : Nat) : ∀ e : Emu, (tickTimersN n e).dt = e.dt - n := by
  induction n with
  | zero => intro e; rfl
  | succ n ih =>
    intro e
    rw [show tickTimersN (n + 1) e = tickTimersN n e.tick_timers from rfl, ih, tick_timers_dt]
    omega

/-- Claim C9: one `tick_timers()` call decrements `delay_timer` exactly
when it is nonzero and, independently, `sound_timer` exactly when it is
nonzero, and neither goes below zero; consequently for every `n ≥ 5`,
`n` calls starting from `delay_timer = 5` end at exactly 0. -/
theorem timers_decrement_and_floor (e : Emu) :
    (0 < e.dt → (Emu.tick_timers e).dt = e.dt - 1) ∧
    (e.dt = 0 → (Emu.tick_timers e).dt = 0) ∧
    (0 < e.st → (Emu.tick_timers e).st = e.st - 1) ∧
    (e.st = 0 → (Emu.tick_timers e).st = 0) ∧
    (∀ n, 5 ≤ n → (tickTimersN n { e with dt := 5 }).dt = 0) := by
  refine ⟨fun _ => tick_timers_dt e, fun h => by rw [tick_timers_dt, h],
    fun _ => tick_timers_st e, fun h => by rw [tick_timers_st, h], fun n hn => ?_⟩
  rw [tickTimersN_dt]
  simp
  omega

/-- Claim C9 witness: 300 `tick_timers()` calls take `delay_timer` from
5 to exactly 0. -/
theorem timers_decrement_and_floor_witness :
    (tickTimersN 300 { Emu.new with dt := 5 }).dt = 0 :=
  (timers_decrement_and_floor Emu.new).2.2.2.2 300 (by decide)


/-! ## Dispatch lemmas for the 8-family arithmetic arms -/

theorem execute_add8 (e : Emu) (op rng : Nat) (h1 : op / 4096 % 16 = 8) (h4 : op % 16 = 4) :
    Emu.execute e op rng = some { e with v_reg := (e.v_reg.set (op / 256 % 16) ((e.v_reg.getD (op / 256 % 16) 0 + e.v_reg.getD (op / 16 % 16) 0) % 256)).set 15 (if 256 ≤ e.v_reg.getD (op / 256 % 16) 0 + e.v_reg.getD (op / 16 % 16) 0 then 1 else 0) } := by
  simp [Emu.execute, h1, h4]

theorem execute_sub8 (e : Emu) (op rng : Nat) (h1 : op / 4096 % 16 = 8) (h4 : op % 16 = 5) :
    Emu.execute e op rng = some { e with v_reg := (e.v_reg.set (op / 256 % 16) ((e.v_reg.getD (op / 256 % 16) 0 + 256 - e.v_reg.getD (op / 16 % 16) 0) % 256)).set 15 (if e.v_reg.getD (op / 256 % 16) 0 < e.v_reg.getD (op / 16 % 16) 0 then 0 else 1) } := by
  simp [Emu.execute, h1, h4]

theorem execute_rsub8 (e : Emu) (op rng : Nat) (h1 : op / 4096 % 16 = 8) (h4 : op % 16 = 7) :
    Emu.execute e op rng = some { e with v_reg := (e.v_reg.set (op / 256 % 16) ((e.v_reg.getD (op / 16 % 16) 0 + 256 - e.v_reg.getD (op / 256 % 16) 0) % 256)).set 15 (if e.v_reg.getD (op / 16 % 16) 0 < e.v_reg.getD (op / 256 % 16) 0 then 0 else 1) } := by
  simp [Emu.execute, h1, h4]

/-- Claim C6: for 8-bit values `a` in `Vx` and `b` in `Vy` (destination
`x ≠ VF`, the flag-destination case being claim C10's), opcode
`8,x,y,4` sets `VF = 1` iff `a + b > 255` and sets `Vx` to
`(a + b) % 256`. -/
theorem add_sets_carry_and_sum (e : Emu) (x y : Nat) (hx : x < 16) (hy : y < 16)
    (hxF : x ≠ 15) (hv : e.v_reg.length = 16)
    (ha : e.v_reg.getD x 0 < 256) (hb : e.v_reg.getD y 0 < 256) :
    ∃ e1, Emu.execute e (opOf 8 x y 4) 0 = some e1 ∧
      (e1.v_reg.getD 15 0 = 1 ↔ 255 < e.v_reg.getD x 0 + e.v_reg.getD y 0) ∧
      e1.v_reg.getD x 0 = (e.v_reg.getD x 0 + e.v_reg.getD y 0) % 256 := by
  have hd1 : opOf 8 x y 4 / 4096 % 16 = 8 := by unfold opOf; omega
  have hd4 : opOf 8 x y 4 % 16 = 4 := by unfold opOf; omega
  have hd2 : opOf 8 x y 4 / 256 % 16 = x := by unfold opOf; omega
  have hd3 : opOf 8 x y 4 / 16 % 16 = y := by unfold opOf; omega
  rw [execute_add8 e _ 0 hd1 hd4, hd2, hd3]
  refine ⟨_, rfl, ?_, ?_⟩
  · show ((e.v_reg.set x _).set 15 _).getD 15 0 = 1 ↔ _
    rw [getD_set, List.length_set, hv, if_pos (by omega : (15:Nat) = 15 ∧ (15:Nat) < 16)]
    split <;> omega
  · show ((e.v_reg.set x _).set 15 _).getD x 0 = _
    rw [getD_set, if_neg (by omega : ¬((15:Nat) = x ∧ x < (e.v_reg.set x _).length)),
      getD_set, if_pos ⟨rfl, by rw [hv]; omega⟩]

/-- Claim C6 witness: with `V0 = 200`, `V1 = 100`, opcode `0x8014` sets
`VF = 1` (since 300 > 255) and `V0 = 44`. -/
theorem add_sets_carry_and_sum_witness :
    ∃ e1, Emu.execute { Emu.new with v_reg := ((List.replicate 16 0).set 0 200).set 1 100 } (opOf 8 0 1 4) 0 = some e1 ∧
      (e1.v_reg.getD 15 0 = 1 ↔ 255 < ({ Emu.new with v_reg := ((List.replicate 16 0).set 0 200).set 1 100 } : Emu).v_reg.getD 0 0 + ({ Emu.new with v_reg := ((List.replicate 16 0).set 0 200).set 1 100 } : Emu).v_reg.getD 1 0) ∧
      e1.v_reg.getD 0 0 = (({ Emu.new with v_reg := ((List.replicate 16 0).set 0 200).set 1 100 } : Emu).v_reg.getD 0 0 + ({ Emu.new with v_reg := ((List.replicate 16 0).set 0 200).set 1 100 } : Emu).v_reg.getD 1 0) % 256 :=
  add_sets_carry_and_sum _ 0 1 (by decide) (by decide) (by decide) (by decide)
    (by decide) (by decide)

/-- Claim C10: when the destination register of the flag-producing
arithmetic opcodes `8,F,y,4`, `8,F,y,5`, `8,F,y,7` is `VF` itself
(`digit2 = 0xF`), the final `VF` is the carry/borrow flag — the source
writes the arithmetic result to `Vx` first and the flag to `VF` second,
so the sum/difference is discarded. -/
theorem vf_destination_keeps_flag (e : Emu) (y : Nat) (hy : y < 16)
    (hv : e.v_reg.length = 16) :
    (∃ e1, Emu.execute e (opOf 8 15 y 4) 0 = some e1 ∧
      e1.v_reg.getD 15 0 = (if 256 ≤ e.v_reg.getD 15 0 + e.v_reg.getD y 0 then 1 else 0)) ∧
    (∃ e1, Emu.execute e (opOf 8 15 y 5) 0 = some e1 ∧
      e1.v_reg.getD 15 0 = (if e.v_reg.getD 15 0 < e.v_reg.getD y 0 then 0 else 1)) ∧
    (∃ e1, Emu.execute e (opOf 8 15 y 7) 0 = some e1 ∧
      e1.v_reg.getD 15 0 = (if e.v_reg.getD y 0 < e.v_reg.getD 15 0 then 0 else 1)) := by
  have hgetD : ∀ (a b : Nat), ((e.v_reg.set 15 a).set 15 b).getD 15 0 = b := by
    intro a b
    rw [getD_set, List.length_set, hv, if_pos (by omega : (15:Nat) = 15 ∧ (15:Nat) < 16)]
  refine ⟨?_, ?_, ?_⟩
  · have hd1 : opOf 8 15 y 4 / 4096 % 16 = 8 := by unfold opOf; omega
    have hd4 : opOf 8 15 y 4 % 16 = 4 := by unfold opOf; omega
    have hd2 : opOf 8 15 y 4 / 256 % 16 = 15 := by unfold opOf; omega
    have hd3 : opOf 8 15 y 4 / 16 % 16 = y := by unfold opOf; omega
    rw [execute_add8 e _ 0 hd1 hd4, hd2, hd3]
    exact ⟨_, rfl, hgetD _ _⟩
  · have hd1 : opOf 8 15 y 5 / 4096 % 16 = 8 := by unfold opOf; omega
    have hd4 : opOf 8 15 y 5 % 16 = 5 := by unfold opOf; omega
    have hd2 : opOf 8 15 y 5 / 256 % 16 = 15 := by unfold opOf; omega
    have hd3 : opOf 8 15 y 5 / 16 % 16 = y := by unfold opOf; omega
    rw [execute_sub8 e _ 0 hd1 hd4, hd2, hd3]
    exact ⟨_, rfl, hgetD _ _⟩
  · have hd1 : opOf 8 15 y 7 / 4096 % 16 = 8 := by unfold opOf; omega
    have hd4 : opOf 8 15 y 7 % 16 = 7 := by unfold opOf; omega
    have hd2 : opOf 8 15 y 7 / 256 % 16 = 15 := by unfold opOf; omega
    have hd3 : opOf 8 15 y 7 / 16 % 16 = y := by unfold opOf; omega
    rw [execute_rsub8 e _ 0 hd1 hd4, hd2, hd3]
    exact ⟨_, rfl, hgetD _ _⟩

/-- Claim C10 witness at `VF = 1`, `V0 = 1`: opcode `0x8F04` ends with
`VF = 0` (the carry flag of 1 + 1, not the sum 2), `0x8F05` ends with
`VF = 1` (no borrow), `0x8F07` ends with `VF = 1` (no borrow). -/
theorem vf_destination_keeps_flag_witness :
    (∃ e1, Emu.execute { Emu.new with v_reg := ((List.replicate 16 0).set 0 1).set 15 1 } (opOf 8 15 0 4) 0 = some e1 ∧
      e1.v_reg.getD 15 0 = (if 256 ≤ ({ Emu.new with v_reg := ((List.replicate 16 0).set 0 1).set 15 1 } : Emu).v_reg.getD 15 0 + ({ Emu.new with v_reg := ((List.replicate 16 0).set 0 1).set 15 1 } : Emu).v_reg.getD 0 0 then 1 else 0)) ∧
    (∃ e1, Emu.execute { Emu.new with v_reg := ((List.replicate 16 0).set 0 1).set 15 1 } (opOf 8 15 0 5) 0 = some e1 ∧
      e1.v_reg.getD 15 0 = (if ({ Emu.new with v_reg := ((List.replicate 16 0).set 0 1).set 15 1 } : Emu).v_reg.getD 15 0 < ({ Emu.new with v_reg := ((List.replicate 16 0).set 0 1).set 15 1 } : Emu).v_reg.getD 0 0 then 0 else 1)) ∧
    (∃ e1, Emu.execute { Emu.new with v_reg := ((List.replicate 16 0).set 0 1).set 15 1 } (opOf 8 15 0 7) 0 = some e1 ∧
      e1.v_reg.getD 15 0 = (if ({ Emu.new with v_reg := ((List.replicate 16 0).set 0 1).set 15 1 } : Emu).v_reg.getD 0 0 < ({ Emu.new with v_reg := ((List.replicate 16 0).set 0 1).set 15 1 } : Emu).v_reg.getD 15 0 then 0 else 1)) :=
  vf_destination_keeps_flag _ 0 (by decide) (by decide)


/-! ## Claim C8 — wait-for-key `F,x,0,A` -/

theorem scanKeys_of_all_off (l : List Bool) :
    ∀ i, (∀ j, j < l.length → l.getD j false = false) → scanKeys l i = none := by
  induction l with
  | nil => intro i _; rfl
  | cons k rest ih =>
    intro i h
    have h0 : k = false := by simpa using h 0 (by simp)
    rw [scanKeys, h0, if_neg (by simp)]
    exact ih (i + 1) (fun j hj => by simpa [List.getD_cons_succ] using h (j + 1) (by simpa using hj))

theorem scanKeys_of_first (l : List Bool) :
    ∀ k i, k < l.length → l.getD k false = true → (∀ j, j < k → l.getD j false = false) →
      scanKeys l i = some (i + k) := by
  induction l with
  | nil => intro k i hk; simp at hk
  | cons b rest ih =>
    intro k i hk hkt hmin
    cases k with
    | zero =>
      have hb : b = true := by simpa using hkt
      rw [scanKeys, hb, if_pos rfl]
      rfl
    | succ k' =>
      have hb : b = false := by simpa using hmin 0 (Nat.succ_pos _)
      rw [scanKeys, hb, if_neg (by simp)]
      have := ih k' (i + 1) (by simpa using hk) (by simpa [List.getD_cons_succ] using hkt)
        (fun j hj => by simpa [List.getD_cons_succ] using hmin (j + 1) (by omega))
      rw [this]
      congr 1
      omega

theorem execute_waitkey (e : Emu) (op rng : Nat) (h1 : op / 4096 % 16 = 0xF)
    (h3 : op / 16 % 16 = 0) (h4 : op % 16 = 0xA) :
    Emu.execute e op rng = (match scanKeys e.keys 0 with
      | some i => some { e with v_reg := e.v_reg.set (op / 256 % 16) i }
      | none => some { e with pc := e.pc - 2 }) := by
  simp [Emu.execute, h1, h3, h4]

theorem fetch_of_bytes (e : Emu) (hi lo : Nat) (hpc : e.pc + 1 < 4096)
    (hhi : e.ram.getD e.pc 0 = hi) (hlo : e.ram.getD (e.pc + 1) 0 = lo) :
    Emu.fetch e = some ({ e with pc := e.pc + 2 }, hi * 256 + lo) := by
  unfold Emu.fetch
  rw [if_pos (by exact hpc), hhi, hlo]

/-- Claim C8: a tick that fetches opcode `F,x,0,A` (bytes `0xF0 + x`,
`0x0A` at the program counter) behaves as follows.  With no key
pressed, the net program counter is unchanged (the fetch advance of 2
is undone by a rewind of 2) and the registers are untouched.  With at
least one key pressed, the keys are scanned in ascending index order,
`Vx` receives the index of the first pressed key, and the program
counter advances past the instruction by 2. -/
theorem waitkey_blocks_or_stores_first (e : Emu) (x : Nat) (hx : x < 16)
    (hpc : e.pc + 1 < 4096) (hkl : e.keys.length = 16)
    (hhi : e.ram.getD e.pc 0 = 0xF0 + x) (hlo : e.ram.getD (e.pc + 1) 0 = 0x0A) :
    ((∀ j, j < 16 → e.keys.getD j false = false) →
      ∃ e1, Emu.tick e 0 = some e1 ∧ e1.pc = e.pc ∧ e1.v_reg = e.v_reg) ∧
    (∀ k, k < 16 → e.keys.getD k false = true →
      (∀ j, j < k → e.keys.getD j false = false) →
      ∃ e1, Emu.tick e 0 = some e1 ∧ e1.pc = e.pc + 2 ∧ e1.v_reg = e.v_reg.set x k) := by
  have hop : (0xF0 + x) * 256 + 0x0A = opOf 0xF x 0 0xA := by unfold opOf; omega
  have hd1 : opOf 0xF x 0 0xA / 4096 % 16 = 0xF := by unfold opOf; omega
  have hd2 : opOf 0xF x 0 0xA / 256 % 16 = x := by unfold opOf; omega
  have hd3 : opOf 0xF x 0 0xA / 16 % 16 = 0 := by unfold opOf; omega
  have hd4 : opOf 0xF x 0 0xA % 16 = 0xA := by unfold opOf; omega
  have htick : Emu.tick e 0 = Emu.execute { e with pc := e.pc + 2 } (opOf 0xF x 0 0xA) 0 := by
    unfold Emu.tick
    rw [fetch_of_bytes e _ _ hpc hhi hlo, hop]
  constructor
  · intro hnone
    have hscan : scanKeys ({ e with pc := e.pc + 2 } : Emu).keys 0 = none :=
      scanKeys_of_all_off _ 0 (fun j hj => hnone j (by rwa [hkl] at hj))
    have hres : Emu.tick e 0 = some { e with pc := e.pc + 2 - 2 } := by
      rw [htick, execute_waitkey _ _ _ hd1 hd3 hd4, hscan]
    refine ⟨_, hres, ?_, rfl⟩
    show e.pc + 2 - 2 = e.pc
    omega
  · intro k hk hkt hmin
    have hscan : scanKeys ({ e with pc := e.pc + 2 } : Emu).keys 0 = some k := by
      have := scanKeys_of_first e.keys k 0 (by omega) hkt hmin
      simpa using this
    have hres : Emu.tick e 0 = some { e with pc := e.pc + 2, v_reg := e.v_reg.set (opOf 0xF x 0 0xA / 256 % 16) k } := by
      rw [htick, execute_waitkey _ _ _ hd1 hd3 hd4, hscan]
    rw [hd2] at hres
    exact ⟨_, hres, rfl, rfl⟩

/-- Claim C8 witness: at `pc = 0x200` with opcode `0xF50A` in memory
and only key 3 pressed, a tick stores 3 into `V5` and advances the
program counter to `0x202`. -/
theorem waitkey_blocks_or_stores_first_witness :
    ∃ e1, Emu.tick { Emu.new with ram := (Emu.new.ram.set 0x200 0xF5).set 0x201 0x0A, keys := (List.replicate 16 false).set 3 true } 0 = some e1 ∧
      e1.pc = ({ Emu.new with ram := (Emu.new.ram.set 0x200 0xF5).set 0x201 0x0A, keys := (List.replicate 16 false).set 3 true } : Emu).pc + 2 ∧
      e1.v_reg = ({ Emu.new with ram := (Emu.new.ram.set 0x200 0xF5).set 0x201 0x0A, keys := (List.replicate 16 false).set 3 true } : Emu).v_reg.set 5 3 :=
  (waitkey_blocks_or_stores_first _ 5 (by decide) (by decide) (by decide)
    (by decide) (by decide)).2 3 (by decide) (by decide) (by decide)


/-! ## Draw-sprite helper lemmas (claim C7) -/

theorem drawPixelList_fst_length :
    ∀ (L : List Nat) (scr : List Bool) (fl : Bool),
      ((drawPixelList scr fl L).1).length = scr.length := by
  intro L
  induction L with
  | nil => intro scr fl; rfl
  | cons i rest ih =>
    intro scr fl
    rw [drawPixelList, ih, List.length_set]

theorem drawPixelList_fst_getD :
    ∀ (L : List Nat) (scr : List Bool) (fl : Bool) (j : Nat), j < scr.length →
      ((drawPixelList scr fl L).1).getD j false =
        xor (scr.getD j false) (List.count j L % 2 == 1) := by
  intro L
  induction L with
  | nil =>
    intro scr fl j hj
    simp [drawPixelList]
  | cons i rest ih =>
    intro scr fl j hj
    rw [drawPixelList, ih _ _ j (by rwa [List.length_set]), getD_set, List.count_cons]
    by_cases hij : i = j
    · subst hij
      rw [if_pos ⟨rfl, hj⟩]
      have hpar : ((List.count i rest + if (i == i) = true then 1 else 0) % 2 == 1)
          = !(List.count i rest % 2 == 1) := by
        rw [if_pos (by simp)]
        rcases Nat.mod_two_eq_zero_or_one (List.count i rest) with h | h <;>
          simp [Nat.add_mod, h]
      rw [hpar]
      cases scr.getD i false <;> cases (List.count i rest % 2 == 1) <;> rfl
    · rw [if_neg (fun hc => hij hc.1)]
      have hz : (if (i == j) = true then 1 else 0) = 0 := by simp [hij]
      rw [hz, Nat.add_zero]

theorem drawPixelList_snd :
    ∀ (L : List Nat) (scr : List Bool) (fl : Bool), L.Nodup →
      (drawPixelList scr fl L).2 = (fl || L.any (fun i => scr.getD i false)) := by
  intro L
  induction L with
  | nil => intro scr fl _; simp [drawPixelList]
  | cons i rest ih =>
    intro scr fl hnd
    have hni : i ∉ rest := (List.nodup_cons.mp hnd).1
    have hndr : rest.Nodup := (List.nodup_cons.mp hnd).2
    rw [drawPixelList, ih _ _ hndr, List.any_cons]
    have hcong : rest.any (fun j => (scr.set i (!(scr.getD i false))).getD j false)
        = rest.any (fun j => scr.getD j false) := by
      refine any_congr_mem _ _ _ (fun j hj => ?_)
      rw [getD_set, if_neg (fun hc => hni (by rw [hc.1]; exact hj))]
    rw [hcong]
    cases fl <;> cases scr.getD i false <;> cases rest.any (fun j => scr.getD j false) <;> rfl

theorem pixelIndex_lt (x0 y0 yl xl : Nat) : pixelIndex x0 y0 yl xl < 2048 := by
  unfold pixelIndex SCREEN_WIDTH SCREEN_HEIGHT
  omega

theorem mem_spritePixels (ram : List Nat) (iReg x0 y0 n i : Nat) :
    i ∈ spritePixels ram iReg x0 y0 n ↔
      ∃ yl xl, yl < n ∧ xl < 8 ∧ spriteBit ram iReg yl xl = true ∧
        pixelIndex x0 y0 yl xl = i := by
  unfold spritePixels spritePairs
  simp only [List.mem_map, List.mem_filter]
  constructor
  · rintro ⟨⟨a, b⟩, ⟨hmem, hbit⟩, hix⟩
    have hab := List.mem_product.mp hmem
    exact ⟨a, b, List.mem_range.mp hab.1, List.mem_range.mp hab.2, hbit, hix⟩
  · rintro ⟨a, b, ha, hb, hbit, hix⟩
    exact ⟨(a, b), ⟨List.mem_product.mpr ⟨List.mem_range.mpr ha, List.mem_range.mpr hb⟩, hbit⟩, hix⟩

theorem spritePixels_mem_lt (ram : List Nat) (iReg x0 y0 n i : Nat)
    (h : i ∈ spritePixels ram iReg x0 y0 n) : i < 2048 := by
  obtain ⟨yl, xl, _, _, _, hix⟩ := (mem_spritePixels ram iReg x0 y0 n i).mp h
  rw [← hix]
  exact pixelIndex_lt x0 y0 yl xl

theorem spritePixels_nodup (ram : List Nat) (iReg x0 y0 n : Nat) (hn : n ≤ 32) :
    (spritePixels ram iReg x0 y0 n).Nodup := by
  unfold spritePixels
  refine List.Nodup.map_on ?_ (List.Nodup.filter _ ?_)
  · rintro ⟨a, b⟩ hp ⟨a', b'⟩ hq hpq
    have hp1 := List.mem_product.mp (List.mem_filter.mp hp).1
    have hq1 := List.mem_product.mp (List.mem_filter.mp hq).1
    have ha : a < n := List.mem_range.mp hp1.1
    have hb : b < 8 := List.mem_range.mp hp1.2
    have ha' : a' < n := List.mem_range.mp hq1.1
    have hb' : b' < 8 := List.mem_range.mp hq1.2
    dsimp only at hpq
    have hab : a = a' ∧ b = b' := by
      unfold pixelIndex SCREEN_WIDTH SCREEN_HEIGHT at hpq
      omega
    rw [hab.1, hab.2]
  · show (spritePairs n).Nodup
    exact List.Nodup.product (List.nodup_range n) (List.nodup_range 8)

theorem execute_draw (e : Emu) (op rng : Nat) (h1 : op / 4096 % 16 = 0xD) :
    Emu.execute e op rng = some (e.drawSprite (op / 256 % 16) (op / 16 % 16) (op % 16)) := by
  simp [Emu.execute, h1]

theorem drawSprite_screen (e : Emu) (d2 d3 d4 : Nat) :
    (e.drawSprite d2 d3 d4).screen = (drawPixelList e.screen false (spritePixels e.ram e.i_reg (e.v_reg.getD d2 0) (e.v_reg.getD d3 0) d4)).1 := rfl

theorem drawSprite_vreg (e : Emu) (d2 d3 d4 : Nat) :
    (e.drawSprite d2 d3 d4).v_reg = e.v_reg.set 15 (if (drawPixelList e.screen false (spritePixels e.ram e.i_reg (e.v_reg.getD d2 0) (e.v_reg.getD d3 0) d4)).2 then 1 else 0) := rfl

theorem drawSprite_ram (e : Emu) (d2 d3 d4 : Nat) :
    (e.drawSprite d2 d3 d4).ram = e.ram := rfl

theorem drawSprite_ireg (e : Emu) (d2 d3 d4 : Nat) :
    (e.drawSprite d2 d3 d4).i_reg = e.i_reg := rfl

/-! ## Claim C7 — double draw -/

/-- Claim C7 counterexample: with the single pixel the sprite touches
already on — screen pixel `(0, 0)` lit, one-row sprite `0x80` drawn at
origin `(V0, V1) = (0, 0)` — drawing twice (opcode `0xD011`) restores
the display (pixel `(0, 0)` is lit again) but the second draw sets
`VF = 0`, not 1: after the first draw the pixel is off, so the second
draw sees no collision. -/
theorem draw_double_vf_cex :
    ((Emu.execute { Emu.new with screen := (List.replicate 2048 false).set 0 true, i_reg := 80, ram := Emu.new.ram.set 80 0x80 } 0xD011 0).bind
      (fun e1 => Emu.execute e1 0xD011 0)).map
      (fun e2 => (e2.screen.getD 0 false, e2.v_reg.getD 15 0)) = some (true, 0) := by
  rfl

/-- Claim C7 (amended): for every display state, sprite data, and
origin (with origin registers `x, y ≠ 0xF`, so the first draw's flag
write does not move the origin), executing the same `D,x,y,n` draw
twice in succession returns the display to its pre-draw state, and the
second draw sets `VF = 1` iff at least one pixel drawn by the sprite
was off in the pre-draw display (so `VF = 0` for an empty sprite or
when every drawn pixel was already lit). -/
theorem draw_double_restores (e : Emu) (x y n : Nat) (hx : x < 16) (hy : y < 16)
    (hxF : x ≠ 15) (hyF : y ≠ 15) (hn : n < 16)
    (hs : e.screen.length = 2048) (hv : e.v_reg.length = 16) :
    ∃ e1 e2, Emu.execute e (opOf 0xD x y n) 0 = some e1 ∧
      Emu.execute e1 (opOf 0xD x y n) 0 = some e2 ∧
      e2.screen = e.screen ∧
      (e2.v_reg.getD 15 0 = 1 ↔
        ∃ i ∈ spritePixels e.ram e.i_reg (e.v_reg.getD x 0) (e.v_reg.getD y 0) n,
          e.screen.getD i false = false) := by
  have hd1 : opOf 0xD x y n / 4096 % 16 = 0xD := by unfold opOf; omega
  have hd2 : opOf 0xD x y n / 256 % 16 = x := by unfold opOf; omega
  have hd3 : opOf 0xD x y n / 16 % 16 = y := by unfold opOf; omega
  have hd4 : opOf 0xD x y n % 16 = n := by unfold opOf; omega
  have he1 : Emu.execute e (opOf 0xD x y n) 0 = some (e.drawSprite x y n) := by
    rw [execute_draw _ _ _ hd1, hd2, hd3, hd4]
  have hx0 : (e.drawSprite x y n).v_reg.getD x 0 = e.v_reg.getD x 0 := by
    rw [drawSprite_vreg, getD_set, if_neg (fun hc => hxF hc.1.symm)]
  have hy0 : (e.drawSprite x y n).v_reg.getD y 0 = e.v_reg.getD y 0 := by
    rw [drawSprite_vreg, getD_set, if_neg (fun hc => hyF hc.1.symm)]
  have he2 : Emu.execute (e.drawSprite x y n) (opOf 0xD x y n) 0
      = some ((e.drawSprite x y n).drawSprite x y n) := by
    rw [execute_draw _ _ _ hd1, hd2, hd3, hd4]
  have hLsame : spritePixels (e.drawSprite x y n).ram (e.drawSprite x y n).i_reg
      ((e.drawSprite x y n).v_reg.getD x 0) ((e.drawSprite x y n).v_reg.getD y 0) n
      = spritePixels e.ram e.i_reg (e.v_reg.getD x 0) (e.v_reg.getD y 0) n := by
    rw [drawSprite_ram, drawSprite_ireg, hx0, hy0]
  have hnd : (spritePixels e.ram e.i_reg (e.v_reg.getD x 0) (e.v_reg.getD y 0) n).Nodup :=
    spritePixels_nodup _ _ _ _ _ (by omega)
  have hmemlt : ∀ i ∈ spritePixels e.ram e.i_reg (e.v_reg.getD x 0) (e.v_reg.getD y 0) n,
      i < 2048 := fun i hi => spritePixels_mem_lt _ _ _ _ _ _ hi
  have hS1len : (e.drawSprite x y n).screen.length = 2048 := by
    rw [drawSprite_screen, drawPixelList_fst_length, hs]
  have hscr2 : ((e.drawSprite x y n).drawSprite x y n).screen = e.screen := by
    rw [drawSprite_screen, hLsame]
    refine ext_of_getD _ _ (by rw [drawPixelList_fst_length, hS1len, hs]) (fun j hj => ?_)
    rw [drawPixelList_fst_getD _ _ _ j (by rwa [drawPixelList_fst_length] at hj),
      drawSprite_screen,
      drawPixelList_fst_getD _ _ _ j
        (by rw [hs]; rwa [drawPixelList_fst_length, hS1len] at hj)]
    cases e.screen.getD j false <;>
      cases (List.count j (spritePixels e.ram e.i_reg (e.v_reg.getD x 0) (e.v_reg.getD y 0) n) % 2 == 1) <;> rfl
  have hv1len : (e.drawSprite x y n).v_reg.length = 16 := by
    rw [drawSprite_vreg, List.length_set, hv]
  have hvf : ((e.drawSprite x y n).drawSprite x y n).v_reg.getD 15 0
      = (if (drawPixelList (e.drawSprite x y n).screen false (spritePixels e.ram e.i_reg (e.v_reg.getD x 0) (e.v_reg.getD y 0) n)).2 then 1 else 0) := by
    rw [drawSprite_vreg, hLsame, getD_set]
    rw [if_pos ⟨rfl, by rw [hv1len]; omega⟩]
  have hflip : (drawPixelList (e.drawSprite x y n).screen false (spritePixels e.ram e.i_reg (e.v_reg.getD x 0) (e.v_reg.getD y 0) n)).2
      = (spritePixels e.ram e.i_reg (e.v_reg.getD x 0) (e.v_reg.getD y 0) n).any
          (fun i => !(e.screen.getD i false)) := by
    rw [drawPixelList_snd _ _ _ hnd, Bool.false_or]
    refine any_congr_mem _ _ _ (fun i hi => ?_)
    rw [drawSprite_screen,
      drawPixelList_fst_getD _ _ _ i (by rw [hs]; exact hmemlt i hi),
      List.count_eq_one_of_mem hnd hi]
    cases e.screen.getD i false <;> rfl
  refine ⟨_, _, he1, he2, hscr2, ?_⟩
  rw [hvf, hflip]
  by_cases hb : (spritePixels e.ram e.i_reg (e.v_reg.getD x 0) (e.v_reg.getD y 0) n).any
      (fun i => !(e.screen.getD i false)) = true
  · rw [if_pos hb]
    simp only [List.any_eq_true, Bool.not_eq_true'] at hb
    exact ⟨fun _ => hb, fun _ => rfl⟩
  · rw [if_neg hb]
    simp only [List.any_eq_true, Bool.not_eq_true'] at hb
    exact ⟨fun h01 => absurd h01 (by omega), fun hex => absurd hex hb⟩

/-- Claim C7 witness: the all-off display with the one-row sprite
`0x80` at `i_reg = 80`, drawn twice at `(V0, V1) = (0, 0)`: the display
returns to its pre-draw state and the second draw's `VF` tracks whether
some drawn pixel started off. -/
theorem draw_double_restores_witness :
    ∃ e1 e2, Emu.execute { Emu.new with i_reg := 80, ram := Emu.new.ram.set 80 0x80 } (opOf 0xD 0 1 1) 0 = some e1 ∧
      Emu.execute e1 (opOf 0xD 0 1 1) 0 = some e2 ∧
      e2.screen = ({ Emu.new with i_reg := 80, ram := Emu.new.ram.set 80 0x80 } : Emu).screen ∧
      (e2.v_reg.getD 15 0 = 1 ↔
        ∃ i ∈ spritePixels ({ Emu.new with i_reg := 80, ram := Emu.new.ram.set 80 0x80 } : Emu).ram ({ Emu.new with i_reg := 80, ram := Emu.new.ram.set 80 0x80 } : Emu).i_reg (({ Emu.new with i_reg := 80, ram := Emu.new.ram.set 80 0x80 } : Emu).v_reg.getD 0 0) (({ Emu.new with i_reg := 80, ram := Emu.new.ram.set 80 0x80 } : Emu).v_reg.getD 1 0) 1,
          ({ Emu.new with i_reg := 80, ram := Emu.new.ram.set 80 0x80 } : Emu).screen.getD i false = false) :=
  draw_double_restores _ 0 1 1 (by decide) (by decide) (by decide) (by decide) (by decide)
    new_screen_len new_vreg_len

end Chip8
